import Mathlib

/-!
Verification of the stors network core: the JSON wire codec for `Response`
(src/src/protocol/response.rs) and the client connection pool
(src/src/client.rs).

The wire is modelled as a list of unicode scalar values (`List Char`): Rust
strings are valid UTF-8, and UTF-8 decoding gives a bijection between valid
byte streams and scalar-value streams, so byte-level and char-level reasoning
coincide for everything the claims need.  `serde_json` is embedded as an
executable JSON parser and printer restricted in one way: JSON numbers are
modelled as unsigned decimal integers (the schema's only number is the `u64`
field `id`; every input rejected by the restriction is also rejected by the
schema, so a decode failure stays a decode failure).
-/

namespace Stors

/-- A parsed JSON document, as produced by the embedded serde_json model.
    Object members keep their textual order and possible duplicates; the
    typed deserializers below decide what to do with them. -/
inductive Json where
  | null : Json
  | jbool : Bool → Json
  | jnum : Nat → Json
  | jstr : List Char → Json
  | jarr : List Json → Json
  | jobj : List (List Char × Json) → Json

/-- The opening-brace character, written via its code point. -/
def lbrace : Char := Char.ofNat 123

/-- The closing-brace character, written via its code point. -/
def rbrace : Char := Char.ofNat 125

/-- JSON insignificant whitespace (RFC 8259: space, tab, line feed, return). -/
def isWs (c : Char) : Bool := c = ' ' || c = '\t' || c = '\n' || c = '\r'

/-- An ASCII decimal digit. -/
def isDig (c : Char) : Bool := decide (48 ≤ c.toNat ∧ c.toNat ≤ 57)

/-- Drop leading JSON whitespace. -/
def stripWs : List Char → List Char
  | [] => []
  | c :: cs => if isWs c then stripWs cs else c :: cs

/-- Numeric value of one hex digit, either case. -/
def hexVal (c : Char) : Option Nat :=
  if 48 ≤ c.toNat ∧ c.toNat ≤ 57 then some (c.toNat - 48)
  else if 97 ≤ c.toNat ∧ c.toNat ≤ 102 then some (c.toNat - 87)
  else if 65 ≤ c.toNat ∧ c.toNat ≤ 70 then some (c.toNat - 55)
  else none

/-- Value of a four-hex-digit escape payload. -/
def hex4 (a b c d : Char) : Option Nat := do
  let va ← hexVal a
  let vb ← hexVal b
  let vc ← hexVal c
  let vd ← hexVal d
  return ((va * 16 + vb) * 16 + vc) * 16 + vd

/-- The single-character escapes serde_json accepts after a backslash. -/
def unescapeChar (e : Char) : Option Char :=
  if e = '"' then some '"'
  else if e = '\\' then some '\\'
  else if e = '/' then some '/'
  else if e = 'b' then some (Char.ofNat 8)
  else if e = 'f' then some (Char.ofNat 12)
  else if e = 'n' then some '\n'
  else if e = 'r' then some '\r'
  else if e = 't' then some '\t'
  else none

/-- Apply a function to the parsed payload of a parser result, keeping the
    unread remainder and any error unchanged. -/
def exMap {α β : Type} (f : α → β) :
    Except String (α × List Char) → Except String (β × List Char)
  | .ok (a, r) => .ok (f a, r)
  | .error e => .error e

/-- Parse the body of a JSON string, after the opening quote: unescape until
    the closing quote, rejecting raw control characters and bad escapes, as
    serde_json does.  Surrogate escape pairs are combined into one scalar.
    The fuel only bounds the recursion (one unit per produced character) and
    is sized by every caller so that it cannot run out. -/
def readStringRest : Nat → List Char → Except String (List Char × List Char)
  | 0, _ => .error "recursion limit exceeded"
  | fuel + 1, cs =>
    match cs with
    | [] => .error "eof while parsing a string"
    | c :: rest =>
      if c = '"' then .ok ([], rest)
      else if c = '\\' then
        match rest with
        | [] => .error "eof while parsing an escape"
        | e :: rest2 =>
          if e = 'u' then
            match rest2 with
            | a :: b :: c2 :: d :: rest3 =>
              match hex4 a b c2 d with
              | none => .error "invalid unicode escape"
              | some n =>
                if 0xD800 ≤ n ∧ n < 0xDC00 then
                  match rest3 with
                  | '\\' :: 'u' :: a2 :: b2 :: c3 :: d2 :: rest4 =>
                    match hex4 a2 b2 c3 d2 with
                    | none => .error "invalid unicode escape"
                    | some m =>
                      if 0xDC00 ≤ m ∧ m < 0xE000 then
                        exMap (fun s => Char.ofNat (0x10000 + (n - 0xD800) * 0x400 + (m - 0xDC00)) :: s)
                          (readStringRest fuel rest4)
                      else .error "unexpected low surrogate value"
                  | _ => .error "unexpected end of surrogate pair"
                else if 0xDC00 ≤ n ∧ n < 0xE000 then .error "lone trailing surrogate"
                else exMap (fun s => Char.ofNat n :: s) (readStringRest fuel rest3)
            | _ => .error "invalid unicode escape"
          else
            match unescapeChar e with
            | none => .error "invalid escape"
            | some ch => exMap (fun s => ch :: s) (readStringRest fuel rest2)
      else if c.toNat < 32 then .error "control character while parsing a string"
      else exMap (fun s => c :: s) (readStringRest fuel rest)

/-- Accumulated numeric value of a run of decimal digit characters. -/
def digitsVal (ds : List Char) : Nat :=
  ds.foldl (fun a c => a * 10 + (c.toNat - 48)) 0

/-- Parse an unsigned decimal integer (the model's JSON number form). -/
def readNat (cs : List Char) : Except String (Nat × List Char) :=
  let ds := cs.takeWhile isDig
  if ds.isEmpty then .error "expected a number"
  else .ok (digitsVal ds, cs.dropWhile isDig)

/-- The loop over one or more comma-separated array items, up to the closing
    bracket; generic in the value parser `v`, which breaks up the mutual
    recursion with jsonValue.  The loop fuel bounds the number of items and is
    sized by the caller so that it cannot run out. -/
def itemsLoop (v : List Char → Except String (Json × List Char)) :
    Nat → List Char → Except String (List Json × List Char)
  | 0, _ => .error "recursion limit exceeded"
  | fuel + 1, cs =>
    match v cs with
    | .error e => .error e
    | .ok (val, r) =>
      match stripWs r with
      | [] => .error "eof while parsing an array"
      | d :: r2 =>
        if d = ',' then exMap (fun vs => val :: vs) (itemsLoop v fuel r2)
        else if d = ']' then .ok ([val], r2)
        else .error "expected comma or end of array"

/-- The loop over one or more comma-separated object members, up to the
    closing brace; generic in the value parser `v`.  The loop fuel bounds the
    number of members and is sized by the caller so that it cannot run out. -/
def fieldsLoop (v : List Char → Except String (Json × List Char)) :
    Nat → List Char → Except String (List (List Char × Json) × List Char)
  | 0, _ => .error "recursion limit exceeded"
  | fuel + 1, cs =>
    match stripWs cs with
    | [] => .error "expected a string key"
    | c :: r =>
      if c = '"' then
        match readStringRest (r.length + 1) r with
        | .error e => .error e
        | .ok (key, r1) =>
          match stripWs r1 with
          | [] => .error "expected a colon"
          | c2 :: r2 =>
            if c2 = ':' then
              match v r2 with
              | .error e => .error e
              | .ok (val, r3) =>
                match stripWs r3 with
                | [] => .error "eof while parsing an object"
                | d :: r4 =>
                  if d = ',' then
                    exMap (fun fs => (key, val) :: fs) (fieldsLoop v fuel r4)
                  else if d = rbrace then .ok ([(key, val)], r4)
                  else .error "expected comma or end of object"
            else .error "expected a colon"
      else .error "expected a string key"

/-- Parse one JSON value; the fuel bounds the nesting depth and is sized by
    the caller so that it never runs out on a complete input. -/
def jsonValue : Nat → List Char → Except String (Json × List Char)
  | 0, _ => .error "recursion limit exceeded"
  | fuel + 1, cs =>
    match stripWs cs with
    | [] => .error "eof while expecting a value"
    | c :: rest =>
      if c = lbrace then
        match stripWs rest with
        | [] => .error "eof while parsing an object"
        | d :: rest2 =>
          if d = rbrace then .ok (.jobj [], rest2)
          else exMap Json.jobj (fieldsLoop (jsonValue fuel) (rest2.length + 2) (d :: rest2))
      else if c = '[' then
        match stripWs rest with
        | [] => .error "eof while parsing an array"
        | d :: rest2 =>
          if d = ']' then .ok (.jarr [], rest2)
          else exMap Json.jarr (itemsLoop (jsonValue fuel) (rest2.length + 2) (d :: rest2))
      else if c = '"' then exMap Json.jstr (readStringRest (rest.length + 1) rest)
      else if isDig c then exMap Json.jnum (readNat (c :: rest))
      else if c = 'n' then
        match rest with
        | 'u' :: 'l' :: 'l' :: r => .ok (.null, r)
        | _ => .error "expected a value"
      else if c = 't' then
        match rest with
        | 'r' :: 'u' :: 'e' :: r => .ok (.jbool true, r)
        | _ => .error "expected a value"
      else if c = 'f' then
        match rest with
        | 'a' :: 'l' :: 's' :: 'e' :: r => .ok (.jbool false, r)
        | _ => .error "expected a value"
      else .error "expected a value"

/-- Parse a complete JSON document: one value, then nothing but whitespace, as
    serde_json::from_slice demands. -/
def parseJson (cs : List Char) : Except String Json :=
  match jsonValue (cs.length + 1) cs with
  | .error e => .error e
  | .ok (j, r) =>
    match stripWs r with
    | [] => .ok j
    | _ => .error "trailing characters"

/-- The Outcome variant set of response.rs (lines 12-19): a closed tagged
    union; strings are lists of unicode scalars. -/
inductive Outcome where
  | OfGet (value : Option (List Char))
  | OfSet (was_modified : Bool)
  | Error (msg : List Char)
  | Invalid (msg : List Char)
deriving DecidableEq, Repr

/-- The Response wire struct of response.rs (lines 5-10); id is u64, kept as a
    Nat with the 2^64 bound enforced where the code's types enforce it. -/
structure Response where
  id : Nat
  outcome : Outcome
deriving DecidableEq, Repr

/-- Tag extraction step of serde's internally tagged enum deserializer: scan
    the members for the type key, keeping every other member in order. -/
def findTag :
    List (List Char × Json) → Option (List Char) → List (List Char × Json) →
    Except String (List Char × List (List Char × Json))
  | [], some t, acc => .ok (t, acc.reverse)
  | [], none, _ => .error "missing field type"
  | (k, v) :: rest, found, acc =>
    if k = "type".data then
      match found with
      | some _ => .error "duplicate field type"
      | none =>
        match v with
        | .jstr t => findTag rest (some t) acc
        | _ => .error "invalid type: tag is not a string"
    else findTag rest found ((k, v) :: acc)

/-- Field loop of the OfGet variant deserializer: the single field value is an
    Option, so serde treats a missing field as None; unknown fields are
    rejected (deny_unknown_fields), duplicates are errors. -/
def ofGetFields :
    List (List Char × Json) → Option (Option (List Char)) → Except String Outcome
  | [], some v => .ok (.OfGet v)
  | [], none => .ok (.OfGet none)
  | (k, x) :: rest, v =>
    if k = "value".data then
      match v with
      | some _ => .error "duplicate field value"
      | none =>
        match x with
        | .null => ofGetFields rest (some none)
        | .jstr s => ofGetFields rest (some (some s))
        | _ => .error "invalid type: expected a string or null"
    else .error "unknown field"

/-- Field loop of the OfSet variant deserializer: was_modified is required. -/
def ofSetFields :
    List (List Char × Json) → Option Bool → Except String Outcome
  | [], some b => .ok (.OfSet b)
  | [], none => .error "missing field was_modified"
  | (k, x) :: rest, v =>
    if k = "was_modified".data then
      match v with
      | some _ => .error "duplicate field was_modified"
      | none =>
        match x with
        | .jbool b => ofSetFields rest (some b)
        | _ => .error "invalid type: expected a boolean"
    else .error "unknown field"

/-- Field loop shared by the Error and Invalid variant deserializers: one
    required string field msg. -/
def msgFields (mk : List Char → Outcome) :
    List (List Char × Json) → Option (List Char) → Except String Outcome
  | [], some m => .ok (mk m)
  | [], none => .error "missing field msg"
  | (k, x) :: rest, v =>
    if k = "msg".data then
      match v with
      | some _ => .error "duplicate field msg"
      | none =>
        match x with
        | .jstr s => msgFields mk rest (some s)
        | _ => .error "invalid type: expected a string"
    else .error "unknown field"

/-- Derived Deserialize for Outcome: internally tagged by the type field
    (response.rs line 13), deny_unknown_fields, variants dispatched by name. -/
def Outcome.fromJson : Json → Except String Outcome
  | .jobj fs =>
    match findTag fs none [] with
    | .error e => .error e
    | .ok (t, rest) =>
      if t = "OfGet".data then ofGetFields rest none
      else if t = "OfSet".data then ofSetFields rest none
      else if t = "Error".data then msgFields .Error rest none
      else if t = "Invalid".data then msgFields .Invalid rest none
      else .error "unknown variant"
  | _ => .error "invalid type: expected an object for Outcome"

/-- Field loop of the derived Deserialize for Response (deny_unknown_fields,
    response.rs line 6): members in any order, duplicates and unknown fields
    rejected, both fields required, id within u64 range. -/
def responseFields :
    List (List Char × Json) → Option Nat → Option Outcome → Except String Response
  | [], idv, outv =>
    match idv, outv with
    | some i, some o => .ok ⟨i, o⟩
    | none, _ => .error "missing field id"
    | some _, none => .error "missing field outcome"
  | (k, v) :: rest, idv, outv =>
    if k = "id".data then
      match idv with
      | some _ => .error "duplicate field id"
      | none =>
        match v with
        | .jnum n =>
          if n < 2 ^ 64 then responseFields rest (some n) outv
          else .error "invalid value: integer out of u64 range"
        | _ => .error "invalid type: expected u64"
    else if k = "outcome".data then
      match outv with
      | some _ => .error "duplicate field outcome"
      | none =>
        match Outcome.fromJson v with
        | .ok o => responseFields rest idv (some o)
        | .error e => .error e
    else .error "unknown field"

/-- Derived Deserialize for Response: expects a JSON object. -/
def Response.fromJson : Json → Except String Response
  | .jobj fs => responseFields fs none none
  | _ => .error "invalid type: expected an object for Response"

/-- Decimal digit character for d < 10, lowercase hex letter beyond. -/
def hexDigitChar (d : Nat) : Char :=
  if d < 10 then Char.ofNat (48 + d) else Char.ofNat (87 + d)

/-- serde_json's one-character string escape: quote and backslash, the five
    short control escapes, a lowercase four-hex-digit unicode escape for the
    remaining control characters, and everything else verbatim. -/
def escapeChar (c : Char) : List Char :=
  if c = '"' then ['\\', '"']
  else if c = '\\' then ['\\', '\\']
  else if c.toNat = 8 then ['\\', 'b']
  else if c.toNat = 9 then ['\\', 't']
  else if c.toNat = 10 then ['\\', 'n']
  else if c.toNat = 12 then ['\\', 'f']
  else if c.toNat = 13 then ['\\', 'r']
  else if c.toNat < 32 then
    ['\\', 'u', '0', '0', hexDigitChar (c.toNat / 16), hexDigitChar (c.toNat % 16)]
  else [c]

/-- Escape every character of a string body. -/
def escapeList (s : List Char) : List Char := s.flatMap escapeChar

/-- A serialized JSON string: quote, escaped body, quote. -/
def quoteStr (s : List Char) : List Char := '"' :: (escapeList s ++ ['"'])

/-- The character of one decimal digit. -/
def decChar (d : Nat) : Char := Char.ofNat (48 + d)

/-- Decimal representation of a natural number, most significant digit
    first (serde_json's integer formatting). -/
def natChars (n : Nat) : List Char :=
  if n = 0 then ['0'] else ((Nat.digits 10 n).map decChar).reverse

/-- Derived Serialize for Outcome through serde_json::to_vec: compact JSON,
    the type tag first, then the variant's field in declaration order. -/
def Outcome.intoChars : Outcome → List Char
  | .OfGet value =>
    lbrace :: (quoteStr "type".data ++ ':' :: quoteStr "OfGet".data ++
      ',' :: quoteStr "value".data ++ ':' ::
      (match value with
       | none => ['n', 'u', 'l', 'l']
       | some s => quoteStr s) ++ [rbrace])
  | .OfSet b =>
    lbrace :: (quoteStr "type".data ++ ':' :: quoteStr "OfSet".data ++
      ',' :: quoteStr "was_modified".data ++ ':' ::
      (if b then "true".data else "false".data) ++ [rbrace])
  | .Error m =>
    lbrace :: (quoteStr "type".data ++ ':' :: quoteStr "Error".data ++
      ',' :: quoteStr "msg".data ++ ':' :: quoteStr m ++ [rbrace])
  | .Invalid m =>
    lbrace :: (quoteStr "type".data ++ ':' :: quoteStr "Invalid".data ++
      ',' :: quoteStr "msg".data ++ ':' :: quoteStr m ++ [rbrace])

/-- Into Vec u8 for Response (response.rs lines 27-31): serde_json::to_vec,
    compact JSON, fields in declaration order. -/
def Response.intoChars (r : Response) : List Char :=
  lbrace :: (quoteStr "id".data ++ ':' :: natChars r.id ++
    ',' :: quoteStr "outcome".data ++ ':' :: r.outcome.intoChars ++ [rbrace])

/-- Modelled from the spec: Hasher (spec section 4.4) lives outside src; it is
    a deterministic, stable u64 hash of the raw bytes used only as a fallback
    correlation id, so any fixed pure function realizes the contract.  We use
    a polynomial hash reduced mod 2^64. -/
def Hasher.hash (bs : List Char) : Nat :=
  bs.foldl (fun a c => (a * 31 + c.toNat) % 2 ^ 64) 5381

/-- serde_json::from_slice at type Response: parse one document, then run the
    derived deserializer. -/
def decodeResponse (bs : List Char) : Except String Response :=
  match parseJson bs with
  | .ok j => Response.fromJson j
  | .error e => .error e

/-- From Vec u8 for Response (response.rs lines 33-40): total decoding with
    the synthetic Invalid fallback carrying the decode error text and the
    hash-derived id. -/
def Response.fromBytes (bs : List Char) : Response :=
  match decodeResponse bs with
  | .ok r => r
  | .error e => { id := Hasher.hash bs, outcome := .Invalid e.data }

/-- True when the list does not start with a decimal digit, so a digit run
    ending right before it cannot be extended. -/
def noLeadingDigit : List Char → Bool
  | [] => true
  | c :: _ => !isDig c

/-- The JSON document produced by the derived Serialize for Outcome. -/
def Outcome.toJson : Outcome → Json
  | .OfGet v =>
    .jobj [("type".data, .jstr "OfGet".data),
      ("value".data, match v with | none => .null | some s => .jstr s)]
  | .OfSet b =>
    .jobj [("type".data, .jstr "OfSet".data), ("was_modified".data, .jbool b)]
  | .Error m =>
    .jobj [("type".data, .jstr "Error".data), ("msg".data, .jstr m)]
  | .Invalid m =>
    .jobj [("type".data, .jstr "Invalid".data), ("msg".data, .jstr m)]

/-- The JSON document produced by the derived Serialize for Response. -/
def Response.toJson (r : Response) : Json :=
  .jobj [("id".data, .jnum r.id), ("outcome".data, r.outcome.toJson)]

/-! ### Unknown-field detection (for the strict-schema property) -/

/-- First value stored under a key in a parsed JSON object. -/
def lookupField : List (List Char × Json) → List Char → Option Json
  | [], _ => none
  | (k, v) :: rest, key => if k = key then some v else lookupField rest key

/-- The variant field names the Outcome deserializer accepts for a tag. -/
def variantKeys (tag : List Char) : List (List Char) :=
  if tag = "OfGet".data then ["value".data]
  else if tag = "OfSet".data then ["was_modified".data]
  else if tag = "Error".data then ["msg".data]
  else if tag = "Invalid".data then ["msg".data]
  else []

/-- The top-level field names the Response deserializer accepts. -/
def knownTopKey (k : List Char) : Bool :=
  decide (k = "id".data) || decide (k = "outcome".data)

/-- The tag of a parsed outcome object: its first type member, when that
    member is a string. -/
def outcomeTag (fs : List (List Char × Json)) : Option (List Char) :=
  match lookupField fs "type".data with
  | some (.jstr t) => some t
  | _ => none

/-- Whether a parsed Response object carries a field no deserializer accepts:
    an unrecognized top-level key, or, inside the outcome object, a key that
    is neither the tag nor a field of the tagged variant. -/
def hasUnknownField (fs : List (List Char × Json)) : Bool :=
  fs.any (fun kv => !knownTopKey kv.1) ||
    (match lookupField fs "outcome".data with
     | some (.jobj os) =>
       match outcomeTag os with
       | some t =>
         os.any (fun kv =>
           !decide (kv.1 = "type".data) && !decide (kv.1 ∈ variantKeys t))
       | none => false
     | _ => false)

/-! ### The client connection pool (client.rs) -/

/-- Modelled from the spec: crate::node::State is outside src and is consumed
    only as an opaque lifecycle marker; the client only ever stores the New
    variant (client.rs line 25). -/
inductive State where
  | New : State
deriving DecidableEq, Repr

/-- Modelled from the spec: std's SocketAddr, of which the client uses only
    equality and the canonical host:port string form (spec section 6, peer
    key format). -/
structure SocketAddr where
  host : List Char
  port : Nat
deriving DecidableEq, Repr

/-- The canonical address string used as the connection-table key. -/
def SocketAddr.toString (a : SocketAddr) : List Char :=
  a.host ++ ':' :: natChars a.port

/-- Modelled from the spec: the frame-codec Connection (spec section 4.1) is
    outside src; the client write path uses a connection only as the handle
    of its underlying stream, modelled as a numeric stream id. -/
structure Connection where
  streamId : Nat
deriving DecidableEq, Repr

/-- One frame handed to a transport stream. -/
structure Frame where
  conn : Nat
  bytes : List Char
deriving DecidableEq, Repr

/-- Modelled from the spec: Connection.write (spec section 4.1) serializes
    the outbound message, appends a single newline delimiter, and writes the
    combined buffer to the output half as one frame. -/
def Connection.writeFrame (c : Connection) (msg : List Char) : Frame :=
  ⟨c.streamId, msg ++ ['\n']⟩

/-- Modelled from the spec: crate::error's IllegalStateError (spec section
    4.4) is outside src; the write path uses the NoPeerAtAddress case naming
    the missing key. -/
inductive IllegalStateError where
  | NoPeerAtAddress (addr : List Char)
deriving DecidableEq, Repr

/-- A boxed error of the client write path: the illegal-state error, a
    stream I/O failure, or a converted JoinError from a panicked task. -/
inductive ClientErr where
  | illegalState (e : IllegalStateError)
  | ioErr (msg : List Char)
  | joinErr (msg : List Char)
deriving DecidableEq, Repr

/-- Lookup in the connection table (DashMap::get), modelled on an association
    list with at most one entry per key. -/
def tableGet : List (List Char × Connection) → List Char → Option Connection
  | [], _ => none
  | (k, c) :: rest, key => if k = key then some c else tableGet rest key

/-- Insert in the connection table (DashMap::insert): replaces the entry of
    an existing key, appends a fresh one otherwise. -/
def tableInsert : List (List Char × Connection) → List Char → Connection →
    List (List Char × Connection)
  | [], key, c => [(key, c)]
  | (k, c0) :: rest, key, c =>
    if k = key then (key, c) :: rest else (k, c0) :: tableInsert rest key c

/-- The keys of the connection table, in table order. -/
def tableKeys (t : List (List Char × Connection)) : List (List Char) :=
  t.map (fun kv => kv.1)

/-- The Client of client.rs (lines 12-18): own address, the configured peer
    addresses, the opaque lifecycle state, and the connection table keyed by
    address strings. -/
structure Client where
  address : SocketAddr
  server_addresses : List SocketAddr
  state : State
  connections : List (List Char × Connection)
deriving DecidableEq, Repr

/-- Client::new (client.rs lines 21-28). -/
def Client.new (address : SocketAddr) (server_addresses : List SocketAddr) :
    Client :=
  ⟨address, server_addresses, .New, []⟩

/-- Client::run (client.rs lines 30-47): one dial task per configured peer
    address, all joined by try_join_all, which preserves input order and
    resolves only after every task has completed; a failed dial is an inner
    Err inside a successful join, so it reaches the result vector instead of
    aborting the join.  Every successful dial is then inserted keyed by the
    address's string form and failed dials are skipped, after which run
    returns Ok.  The dial oracle stands for the network: what the socket
    connect returned for each address.  dialStep folds one dial task's result
    into the table: a success is inserted keyed by the address string, a
    failure is skipped. -/
def dialStep (dial : SocketAddr → Except (List Char) Connection)
    (t : List (List Char × Connection)) (addr : SocketAddr) :
    List (List Char × Connection) :=
  match dial addr with
  | .ok conn => tableInsert t addr.toString conn
  | .error _ => t

/-- Client::run, assembled from dialStep over the configured addresses in
    order; the call itself always returns Ok. -/
def Client.run (c : Client)
    (dial : SocketAddr → Except (List Char) Connection) :
    Except (List Char) Client :=
  .ok { c with connections :=
    c.server_addresses.foldl (dialStep dial) c.connections }

/-- Client::write (client.rs lines 49-52): lock the shared connection and
    perform one write on it.  The net oracle gives each stream's write
    result; the emitted frame records the single write performed. -/
def Client.write (conn : Connection) (msg : List Char)
    (net : Nat → Except (List Char) Unit) : Except ClientErr Unit × List Frame :=
  match net conn.streamId with
  | .ok _ => (.ok (), [conn.writeFrame msg])
  | .error e => (.error (.ioErr e), [conn.writeFrame msg])

/-- The result of one client write call: the caller-visible value, the client
    afterwards, and the frames handed to the transport. -/
structure WriteToOut where
  result : Except ClientErr Unit
  client : Client
  frames : List Frame

/-- Client::write_to (client.rs lines 54-62): look up the peer key; if it is
    absent, fail with NoPeerAtAddress naming the key, touching no connection;
    if present, perform exactly one write on that peer's connection. -/
def Client.write_to (c : Client) (peer : List Char) (msg : List Char)
    (net : Nat → Except (List Char) Unit) : WriteToOut :=
  match tableGet c.connections peer with
  | none => ⟨.error (.illegalState (.NoPeerAtAddress peer)), c, []⟩
  | some conn =>
    let w := Client.write conn msg net
    ⟨w.1, c, w.2⟩

/-- The resolution loop of Client::write_many (lines 65-68): each peer key is
    looked up and unwrapped; a missing key panics, modelled as none. -/
def resolveConns (t : List (List Char × Connection)) :
    List (List Char) → Option (List Connection)
  | [] => some []
  | k :: ks =>
    match tableGet t k, resolveConns t ks with
    | some c, some cs => some (c :: cs)
    | _, _ => none

/-- The environment's outcome for one spawned write task: a clean write
    result, or a panic that the join turns into a JoinError. -/
inductive TaskRes where
  | ok : TaskRes
  | ioFail (msg : List Char) : TaskRes
  | panicked (msg : List Char) : TaskRes
deriving DecidableEq, Repr

/-- The joined result of one write task (client.rs line 76): unwrap_or_else
    converts a JoinError from a panicked task into an error value in that
    task's own result slot; a completed task's write result passes through. -/
def taskResult : TaskRes → Except ClientErr Unit
  | .ok => .ok ()
  | .ioFail e => .error (.ioErr e)
  | .panicked e => .error (.joinErr e)

/-- The result of a batch write call. -/
structure WriteManyOut where
  results : List (Except ClientErr Unit)
  client : Client
  frames : List Frame

/-- Client::write_many (client.rs lines 64-80): resolve every key (panicking
    if any is absent), spawn one write task per connection, and collect with
    buffer_unordered exactly one joined result per task, in the completion
    order chosen by the scheduler (the order argument, indices into the task
    list); a panicked task becomes an error slot instead of aborting the
    batch.  Frames record the writes of the tasks that ran their write (a
    panicked task's write is not observed).  none models the unwrap panic on
    a missing key. -/
def Client.write_many (c : Client) (peers : List (List Char)) (msg : List Char)
    (outs : Nat → TaskRes) (order : List Nat) : Option WriteManyOut :=
  match resolveConns c.connections peers with
  | none => none
  | some conns =>
    some {
      results := order.map (fun i => taskResult (outs i)),
      client := c,
      frames := (List.range conns.length).filterMap (fun i =>
        match outs i with
        | .panicked _ => none
        | _ =>
          match conns.get? i with
          | some conn => some (conn.writeFrame msg)
          | none => none) }

/-- Client::broadcast (client.rs lines 82-89): snapshot the peer keys
    currently in the connection table, then write_many over the snapshot. -/
def Client.broadcast (c : Client) (msg : List Char)
    (outs : Nat → TaskRes) (order : List Nat) : Option WriteManyOut :=
  c.write_many (tableKeys c.connections) msg outs order

/-- A three-peer sample client used to exercise the write path on concrete
    inputs. -/
def sampleClient : Client :=
  { address := ⟨"127.0.0.1".data, 9⟩
    server_addresses := [⟨"127.0.0.1".data, 1⟩, ⟨"127.0.0.1".data, 2⟩]
    state := .New
    connections := [("p1".data, ⟨1⟩), ("p2".data, ⟨2⟩), ("p3".data, ⟨3⟩)] }

/-- A sample network where only the first configured address accepts. -/
def sampleDial : SocketAddr → Except (List Char) Connection := fun a =>
  if a.port = 1 then .ok ⟨11⟩ else .error "connection refused".data

/-- A sample transport where stream 2 fails its write. -/
def sampleNet : Nat → Except (List Char) Unit := fun i =>
  if i = 2 then .error "broken pipe".data else .ok ()

/-- A sample scheduler outcome where task 1 panics. -/
def sampleOuts : Nat → TaskRes := fun i =>
  if i = 1 then .panicked "task panicked".data else .ok

/-- Propositional equality on Except is decidable componentwise. -/
instance {ε α : Type} [DecidableEq ε] [DecidableEq α] :
    DecidableEq (Except ε α) := fun a b =>
  match a, b with
  | .error e1, .error e2 =>
    if h : e1 = e2 then .isTrue (by rw [h])
    else .isFalse (fun hh => h (by cases hh; rfl))
  | .ok a1, .ok a2 =>
    if h : a1 = a2 then .isTrue (by rw [h])
    else .isFalse (fun hh => h (by cases hh; rfl))
  | .error _, .ok _ => .isFalse (fun hh => Except.noConfusion hh)
  | .ok _, .error _ => .isFalse (fun hh => Except.noConfusion hh)

/-! ### Character and lexer lemmas -/

theorem char_ne_of_toNat_ne {a b : Char} (h : a.toNat ≠ b.toNat) : a ≠ b :=
  fun e => h (e ▸ rfl)

theorem stripWs_cons {c : Char} {r : List Char} (h : isWs c = false) :
    stripWs (c :: r) = c :: r := by
  simp [stripWs, h]

theorem isDig_toNat {c : Char} (h : isDig c = true) :
    48 ≤ c.toNat ∧ c.toNat ≤ 57 := by
  simpa [isDig] using h

theorem isDig_ne {c : Char} (h : isDig c = true) (d : Char)
    (hd : d.toNat < 48 ∨ 57 < d.toNat) : c ≠ d := by
  obtain ⟨h1, h2⟩ := isDig_toNat h
  exact char_ne_of_toNat_ne (by omega)

theorem isDig_isWs {c : Char} (h : isDig c = true) : isWs c = false := by
  have hsp := isDig_ne h ' ' (by decide)
  have htb := isDig_ne h '\t' (by decide)
  have hnl := isDig_ne h '\n' (by decide)
  have hcr := isDig_ne h '\r' (by decide)
  simp [isWs, hsp, htb, hnl, hcr]

theorem decChar_toNat {d : Nat} (h : d < 10) : (decChar d).toNat = 48 + d := by
  interval_cases d <;> rfl

theorem isDig_decChar {d : Nat} (h : d < 10) : isDig (decChar d) = true := by
  interval_cases d <;> rfl

theorem natChars_digits (n : Nat) : ∀ c ∈ natChars n, isDig c = true := by
  unfold natChars
  split
  · intro c hc
    simp only [List.mem_singleton] at hc
    subst hc
    rfl
  · intro c hc
    simp only [List.mem_reverse, List.mem_map] at hc
    obtain ⟨d, hd, rfl⟩ := hc
    exact isDig_decChar (Nat.digits_lt_base (by norm_num) hd)

theorem natChars_ne_nil (n : Nat) : natChars n ≠ [] := by
  unfold natChars
  split
  · simp
  · rename_i h
    simp [Nat.digits_ne_nil_iff_ne_zero, h]

theorem foldl_decChars (L : List Nat) (hL : ∀ d ∈ L, d < 10) (a0 : Nat) :
    ((L.map decChar).reverse).foldl (fun a c => a * 10 + (c.toNat - 48)) a0
      = a0 * 10 ^ L.length + Nat.ofDigits 10 L := by
  induction L generalizing a0 with
  | nil => simp
  | cons d L ih =>
    have hd : d < 10 := hL d (by simp)
    have hL2 : ∀ x ∈ L, x < 10 := fun x hx => hL x (by simp [hx])
    simp only [List.map_cons, List.reverse_cons, List.foldl_append, List.foldl_cons,
      List.foldl_nil]
    rw [ih hL2, decChar_toNat hd, Nat.ofDigits_cons]
    have hdd : 48 + d - 48 = d := by omega
    rw [hdd, List.length_cons, pow_succ]
    ring

theorem digitsVal_natChars (n : Nat) : digitsVal (natChars n) = n := by
  unfold natChars digitsVal
  split
  · rename_i h
    subst h
    rfl
  · rw [foldl_decChars _ (fun d hd => Nat.digits_lt_base (by norm_num) hd) 0]
    simp [Nat.ofDigits_digits]

theorem takeWhile_digits (ds : List Char) (hds : ∀ c ∈ ds, isDig c = true)
    (rest : List Char) (hrest : noLeadingDigit rest = true) :
    (ds ++ rest).takeWhile isDig = ds ∧ (ds ++ rest).dropWhile isDig = rest := by
  induction ds with
  | nil =>
    cases rest with
    | nil => simp
    | cons c r =>
      simp only [noLeadingDigit, Bool.not_eq_true'] at hrest
      simp [List.takeWhile_cons, List.dropWhile_cons, hrest]
  | cons c t ih =>
    have hc : isDig c = true := hds c (by simp)
    have ht := ih (fun x hx => hds x (by simp [hx]))
    simp [List.takeWhile_cons, List.dropWhile_cons, hc, ht.1, ht.2]

theorem readNat_natChars (n : Nat) (rest : List Char)
    (h : noLeadingDigit rest = true) :
    readNat (natChars n ++ rest) = .ok (n, rest) := by
  obtain ⟨h1, h2⟩ := takeWhile_digits (natChars n) (natChars_digits n) rest h
  unfold readNat
  rw [h1, h2]
  simp [natChars_ne_nil, digitsVal_natChars]

/-! ### String escape round trip -/

theorem hexVal_hexDigitChar {d : Nat} (h : d < 16) : hexVal (hexDigitChar d) = some d := by
  interval_cases d <;> rfl

theorem readStringRest_cons (f : Nat) (c : Char) (rest : List Char) (h1 : c ≠ '"')
    (h2 : c ≠ '\\') (h3 : ¬ c.toNat < 32) :
    readStringRest (f + 1) (c :: rest)
      = exMap (fun s => c :: s) (readStringRest f rest) := by
  rw [readStringRest.eq_def]
  simp only []
  rw [if_neg h1, if_neg h2, if_neg h3]

theorem readStringRest_escape (f : Nat) (c : Char) (more : List Char) :
    readStringRest (f + 1) (escapeChar c ++ more)
      = exMap (fun s => c :: s) (readStringRest f more) := by
  by_cases hq : c = '"'
  · subst hq; rfl
  · by_cases hb : c = '\\'
    · subst hb; rfl
    · by_cases h8 : c.toNat = 8
      · have hc8 : c = Char.ofNat 8 := by rw [← Char.ofNat_toNat c, h8]
        subst hc8; rfl
      · by_cases h9 : c.toNat = 9
        · have hc9 : c = Char.ofNat 9 := by rw [← Char.ofNat_toNat c, h9]
          subst hc9; rfl
        · by_cases h10 : c.toNat = 10
          · have hc10 : c = Char.ofNat 10 := by rw [← Char.ofNat_toNat c, h10]
            subst hc10; rfl
          · by_cases h12 : c.toNat = 12
            · have hc12 : c = Char.ofNat 12 := by rw [← Char.ofNat_toNat c, h12]
              subst hc12; rfl
            · by_cases h13 : c.toNat = 13
              · have hc13 : c = Char.ofNat 13 := by rw [← Char.ofNat_toNat c, h13]
                subst hc13; rfl
              · by_cases hct : c.toNat < 32
                · have ht1 : c.toNat / 16 < 16 := by omega
                  have ht2 : c.toNat % 16 < 16 := by omega
                  have henc : escapeChar c
                      = ['\\', 'u', '0', '0', hexDigitChar (c.toNat / 16),
                          hexDigitChar (c.toNat % 16)] := by
                    unfold escapeChar
                    rw [if_neg hq, if_neg hb, if_neg h8, if_neg h9, if_neg h10,
                      if_neg h12, if_neg h13, if_pos hct]
                  have h0 : hexVal '0' = some 0 := rfl
                  rw [henc]
                  rw [show (['\\', 'u', '0', '0', hexDigitChar (c.toNat / 16),
                      hexDigitChar (c.toNat % 16)] : List Char) ++ more
                    = '\\' :: 'u' :: '0' :: '0' :: hexDigitChar (c.toNat / 16)
                      :: hexDigitChar (c.toNat % 16) :: more from rfl]
                  rw [readStringRest.eq_def]
                  simp only [hex4, h0, hexVal_hexDigitChar ht1, hexVal_hexDigitChar ht2]
                  norm_num
                  rw [if_neg (by decide : ¬('\\' = '"'))]
                  have hv : c.toNat / 16 * 16 + c.toNat % 16 = c.toNat := by omega
                  rw [hv]
                  rw [if_neg (by omega), if_neg (by omega), Char.ofNat_toNat]
                · have henc : escapeChar c = [c] := by
                    unfold escapeChar
                    rw [if_neg hq, if_neg hb, if_neg h8, if_neg h9, if_neg h10,
                      if_neg h12, if_neg h13, if_neg hct]
                  rw [henc, List.cons_append, List.nil_append,
                    readStringRest_cons f c more hq hb hct]

theorem escapeChar_len (c : Char) : 1 ≤ (escapeChar c).length := by
  unfold escapeChar
  split_ifs <;> simp

theorem escapeList_len (s : List Char) : s.length ≤ (escapeList s).length := by
  induction s with
  | nil => simp [escapeList]
  | cons c t ih =>
    have := escapeChar_len c
    simp only [escapeList, List.flatMap_cons, List.length_append, List.length_cons] at *
    omega

theorem readStringRest_escapeList (s : List Char) : ∀ (f : Nat), s.length < f →
    ∀ (more : List Char), readStringRest f (escapeList s ++ '"' :: more) = .ok (s, more) := by
  induction s with
  | nil =>
    intro f hf more
    obtain ⟨g, rfl⟩ : ∃ g, f = g + 1 := ⟨f - 1, by omega⟩
    rfl
  | cons c t ih =>
    intro f hf more
    obtain ⟨g, rfl⟩ : ∃ g, f = g + 1 := ⟨f - 1, by omega⟩
    have hlen : t.length < g := by
      simp only [List.length_cons] at hf
      omega
    rw [show escapeList (c :: t) = escapeChar c ++ escapeList t from by
        simp [escapeList],
      List.append_assoc, readStringRest_escape, ih g hlen more]
    rfl

/-! ### Parsing the encoder's output -/

theorem quoteStr_append (s more : List Char) :
    quoteStr s ++ more = '"' :: (escapeList s ++ '"' :: more) := by
  simp [quoteStr]

theorem jsonValue_quoteStr (f : Nat) (s more : List Char) :
    jsonValue (f + 1) (quoteStr s ++ more) = .ok (.jstr s, more) := by
  rw [quoteStr_append, jsonValue.eq_def]
  simp only []
  rw [stripWs_cons (show isWs '"' = false from rfl)]
  simp only []
  rw [if_neg (by decide : ¬('"' = lbrace)), if_neg (by decide : ¬('"' = '[')),
    if_pos (by trivial)]
  rw [readStringRest_escapeList s _ (by
      have := escapeList_len s
      simp only [List.length_append, List.length_cons]
      omega) more]
  rfl

theorem jsonValue_null (f : Nat) (more : List Char) :
    jsonValue (f + 1) ('n' :: 'u' :: 'l' :: 'l' :: more) = .ok (.null, more) := rfl

theorem jsonValue_true (f : Nat) (more : List Char) :
    jsonValue (f + 1) ('t' :: 'r' :: 'u' :: 'e' :: more) = .ok (.jbool true, more) := rfl

theorem jsonValue_false (f : Nat) (more : List Char) :
    jsonValue (f + 1) ('f' :: 'a' :: 'l' :: 's' :: 'e' :: more)
      = .ok (.jbool false, more) := rfl

theorem jsonValue_nat (f : Nat) (n : Nat) (more : List Char)
    (h : noLeadingDigit more = true) :
    jsonValue (f + 1) (natChars n ++ more) = .ok (.jnum n, more) := by
  rcases hnc : natChars n with _ | ⟨c0, t0⟩
  · exact absurd hnc (natChars_ne_nil n)
  · have hd : isDig c0 = true := natChars_digits n c0 (by rw [hnc]; simp)
    rw [List.cons_append, jsonValue.eq_def]
    simp only []
    rw [stripWs_cons (isDig_isWs hd)]
    simp only []
    rw [if_neg (isDig_ne hd lbrace (by decide)), if_neg (isDig_ne hd '[' (by decide)),
      if_neg (isDig_ne hd '"' (by decide)), if_pos hd]
    rw [show c0 :: (t0 ++ more) = (c0 :: t0) ++ more from rfl, ← hnc,
      readNat_natChars n more h]
    rfl

theorem fieldsLoop_step1
    (v : List Char → Except String (Json × List Char)) (lf : Nat)
    (k venc : List Char) (j : Json) (ms : List (List Char × Json))
    (more MORE2 : List Char)
    (hv : v (venc ++ ',' :: MORE2) = .ok (j, ',' :: MORE2))
    (hrest : fieldsLoop v lf MORE2 = .ok (ms, more)) :
    fieldsLoop v (lf + 1)
      ('"' :: (escapeList k ++ '"' :: ':' :: (venc ++ ',' :: MORE2)))
      = .ok ((k, j) :: ms, more) := by
  rw [fieldsLoop.eq_def]
  simp only []
  rw [stripWs_cons (show isWs '"' = false from rfl)]
  simp only []
  rw [if_pos (by trivial)]
  rw [readStringRest_escapeList k _ (by
      have := escapeList_len k
      simp only [List.length_append, List.length_cons]
      omega) _]
  simp only []
  rw [stripWs_cons (show isWs ':' = false from rfl)]
  simp only []
  rw [if_pos (by trivial), hv]
  simp only []
  rw [stripWs_cons (show isWs ',' = false from rfl)]
  simp only []
  rw [if_pos (by trivial), hrest]
  rfl

theorem fieldsLoop_step0
    (v : List Char → Except String (Json × List Char)) (lf : Nat)
    (k venc : List Char) (j : Json) (more : List Char)
    (hv : v (venc ++ rbrace :: more) = .ok (j, rbrace :: more)) :
    fieldsLoop v (lf + 1)
      ('"' :: (escapeList k ++ '"' :: ':' :: (venc ++ rbrace :: more)))
      = .ok ([(k, j)], more) := by
  rw [fieldsLoop.eq_def]
  simp only []
  rw [stripWs_cons (show isWs '"' = false from rfl)]
  simp only []
  rw [if_pos (by trivial)]
  rw [readStringRest_escapeList k _ (by
      have := escapeList_len k
      simp only [List.length_append, List.length_cons]
      omega) _]
  simp only []
  rw [stripWs_cons (show isWs ':' = false from rfl)]
  simp only []
  rw [if_pos (by trivial), hv]
  simp only []
  rw [stripWs_cons (show isWs rbrace = false from rfl)]
  simp only []
  rw [if_neg (by decide : ¬(rbrace = ',')), if_pos (by trivial)]

theorem jsonValue_objStart (f : Nat) (c : Char) (r more : List Char)
    (fs : List (List Char × Json))
    (hc1 : isWs c = false) (hc2 : c ≠ rbrace)
    (hmem : fieldsLoop (jsonValue f) (r.length + 2) (c :: r) = .ok (fs, more)) :
    jsonValue (f + 1) (lbrace :: c :: r) = .ok (.jobj fs, more) := by
  rw [jsonValue.eq_def]
  simp only []
  rw [stripWs_cons (show isWs lbrace = false from rfl)]
  simp only []
  rw [if_pos (by trivial), stripWs_cons hc1]
  simp only []
  rw [if_neg hc2, hmem]
  rfl

theorem jsonValue_outcome (f : Nat) (o : Outcome) (more : List Char) :
    jsonValue (f + 4) (Outcome.intoChars o ++ more) = .ok (Outcome.toJson o, more) := by
  cases o with
  | OfGet v =>
    cases v with
    | none =>
      have hshape : Outcome.intoChars (.OfGet none) ++ more
          = lbrace :: ('"' :: (escapeList "type".data ++ '"' :: ':' ::
              (quoteStr "OfGet".data ++ ',' :: ('"' :: (escapeList "value".data
                ++ '"' :: ':' :: (('n' :: 'u' :: 'l' :: 'l' :: [])
                  ++ rbrace :: more)))))) := by
        simp [Outcome.intoChars, quoteStr, List.append_assoc]
      rw [hshape]
      refine jsonValue_objStart (f + 3) '"' _ more _ rfl (by decide) ?_
      refine fieldsLoop_step1 _ _ _ _ _ _ _ _ (jsonValue_quoteStr (f + 2) _ _) ?_
      exact fieldsLoop_step0 _ _ _ _ _ _ (jsonValue_null (f + 2) _)
    | some s =>
      have hshape : Outcome.intoChars (.OfGet (some s)) ++ more
          = lbrace :: ('"' :: (escapeList "type".data ++ '"' :: ':' ::
              (quoteStr "OfGet".data ++ ',' :: ('"' :: (escapeList "value".data
                ++ '"' :: ':' :: (quoteStr s ++ rbrace :: more)))))) := by
        simp [Outcome.intoChars, quoteStr, List.append_assoc]
      rw [hshape]
      refine jsonValue_objStart (f + 3) '"' _ more _ rfl (by decide) ?_
      refine fieldsLoop_step1 _ _ _ _ _ _ _ _ (jsonValue_quoteStr (f + 2) _ _) ?_
      exact fieldsLoop_step0 _ _ _ _ _ _ (jsonValue_quoteStr (f + 2) _ _)
  | OfSet b =>
    have hshape : Outcome.intoChars (.OfSet b) ++ more
        = lbrace :: ('"' :: (escapeList "type".data ++ '"' :: ':' ::
            (quoteStr "OfSet".data ++ ',' :: ('"' :: (escapeList "was_modified".data
              ++ '"' :: ':' :: ((if b then "true".data else "false".data)
                ++ rbrace :: more)))))) := by
      simp [Outcome.intoChars, quoteStr, List.append_assoc]
    rw [hshape]
    refine jsonValue_objStart (f + 3) '"' _ more _ rfl (by decide) ?_
    refine fieldsLoop_step1 _ _ _ _ _ _ _ _ (jsonValue_quoteStr (f + 2) _ _) ?_
    refine fieldsLoop_step0 _ _ _ _ _ _ ?_
    cases b with
    | true => exact jsonValue_true (f + 2) _
    | false => exact jsonValue_false (f + 2) _
  | Error m =>
    have hshape : Outcome.intoChars (.Error m) ++ more
        = lbrace :: ('"' :: (escapeList "type".data ++ '"' :: ':' ::
            (quoteStr "Error".data ++ ',' :: ('"' :: (escapeList "msg".data
              ++ '"' :: ':' :: (quoteStr m ++ rbrace :: more)))))) := by
      simp [Outcome.intoChars, quoteStr, List.append_assoc]
    rw [hshape]
    refine jsonValue_objStart (f + 3) '"' _ more _ rfl (by decide) ?_
    refine fieldsLoop_step1 _ _ _ _ _ _ _ _ (jsonValue_quoteStr (f + 2) _ _) ?_
    exact fieldsLoop_step0 _ _ _ _ _ _ (jsonValue_quoteStr (f + 2) _ _)
  | Invalid m =>
    have hshape : Outcome.intoChars (.Invalid m) ++ more
        = lbrace :: ('"' :: (escapeList "type".data ++ '"' :: ':' ::
            (quoteStr "Invalid".data ++ ',' :: ('"' :: (escapeList "msg".data
              ++ '"' :: ':' :: (quoteStr m ++ rbrace :: more)))))) := by
      simp [Outcome.intoChars, quoteStr, List.append_assoc]
    rw [hshape]
    refine jsonValue_objStart (f + 3) '"' _ more _ rfl (by decide) ?_
    refine fieldsLoop_step1 _ _ _ _ _ _ _ _ (jsonValue_quoteStr (f + 2) _ _) ?_
    exact fieldsLoop_step0 _ _ _ _ _ _ (jsonValue_quoteStr (f + 2) _ _)

theorem jsonValue_response (f : Nat) (r : Response) (more : List Char) :
    jsonValue (f + 5) (Response.intoChars r ++ more)
      = .ok (Response.toJson r, more) := by
  obtain ⟨i, o⟩ := r
  have hshape : Response.intoChars ⟨i, o⟩ ++ more
      = lbrace :: ('"' :: (escapeList "id".data ++ '"' :: ':' ::
          (natChars i ++ ',' :: ('"' :: (escapeList "outcome".data ++ '"' :: ':' ::
            (Outcome.intoChars o ++ rbrace :: more)))))) := by
    simp [Response.intoChars, quoteStr, List.append_assoc]
  rw [hshape]
  refine jsonValue_objStart (f + 4) '"' _ more _ rfl (by decide) ?_
  refine fieldsLoop_step1 _ _ _ _ _ _ _ _
    (jsonValue_nat (f + 3) i _ (by rfl)) ?_
  exact fieldsLoop_step0 _ _ _ _ _ _ (jsonValue_outcome f o (rbrace :: more))

theorem intoChars_len (r : Response) : 5 ≤ (Response.intoChars r).length := by
  obtain ⟨i, o⟩ := r
  simp only [Response.intoChars, quoteStr, List.length_cons, List.length_append]
  omega

theorem parseJson_intoChars (r : Response) :
    parseJson (Response.intoChars r) = .ok (Response.toJson r) := by
  obtain ⟨f, hf⟩ : ∃ f, (Response.intoChars r).length + 1 = f + 5 :=
    ⟨(Response.intoChars r).length - 4, by have := intoChars_len r; omega⟩
  unfold parseJson
  rw [hf]
  rw [show jsonValue (f + 5) (Response.intoChars r)
      = jsonValue (f + 5) (Response.intoChars r ++ []) from by rw [List.append_nil]]
  rw [jsonValue_response f r []]
  rfl

/-! ### The deserializer inverts the serializer -/

theorem outcome_fromJson_toJson (o : Outcome) :
    Outcome.fromJson (Outcome.toJson o) = .ok o := by
  cases o with
  | OfGet v =>
    cases v with
    | none => simp [Outcome.toJson, Outcome.fromJson, findTag, ofGetFields]
    | some s => simp [Outcome.toJson, Outcome.fromJson, findTag, ofGetFields]
  | OfSet b => simp [Outcome.toJson, Outcome.fromJson, findTag, ofSetFields]
  | Error m => simp [Outcome.toJson, Outcome.fromJson, findTag, msgFields]
  | Invalid m => simp [Outcome.toJson, Outcome.fromJson, findTag, msgFields]

theorem response_fromJson_toJson (r : Response) (h : r.id < 2 ^ 64) :
    Response.fromJson (Response.toJson r) = .ok r := by
  obtain ⟨i, o⟩ := r
  simp only [Response.id] at h
  have h2 : i < 18446744073709551616 := by simpa using h
  simp [Response.toJson, Response.fromJson, responseFields, h2,
    outcome_fromJson_toJson]

/-! ### Claim C1: malformed input decodes to a synthetic Invalid response -/

/-- C1: decoding is a total function — for every byte sequence whose strict
    decode fails, Response::from returns the synthetic Response whose outcome
    is Invalid carrying the decode error text and whose id is Hasher::hash of
    the raw input, so every byte sequence maps to some Response value and no
    input raises a fatal error. -/
theorem c1_decode_malformed_total (bs : List Char) (e : String)
    (h : decodeResponse bs = .error e) :
    Response.fromBytes bs
      = { id := Hasher.hash bs, outcome := .Invalid e.data } := by
  unfold Response.fromBytes
  rw [h]

theorem c1_decode_malformed_total_witness :
    decodeResponse "garbage".data = .error "expected a value" ∧
      Response.fromBytes "garbage".data
        = { id := Hasher.hash "garbage".data,
            outcome := .Invalid "expected a value".data } :=
  ⟨rfl, c1_decode_malformed_total "garbage".data "expected a value" rfl⟩

/-! ### Claim C2: encode then decode is the identity -/

/-- C2: the wire codec round-trips — for every Response value whose id is a
    u64, decoding the bytes produced by encoding it yields the value again:
    decode (encode v) = v. -/
theorem c2_decode_encode_roundtrip (r : Response) (h : r.id < 2 ^ 64) :
    Response.fromBytes (Response.intoChars r) = r := by
  unfold Response.fromBytes decodeResponse
  rw [parseJson_intoChars]
  simp only []
  rw [response_fromJson_toJson r h]

theorem c2_decode_encode_roundtrip_witness :
    (42 : Nat) < 2 ^ 64 ∧
      Response.fromBytes (Response.intoChars ⟨42, .OfGet (some "bar".data)⟩)
        = ⟨42, .OfGet (some "bar".data)⟩ :=
  ⟨by norm_num,
    c2_decode_encode_roundtrip ⟨42, .OfGet (some "bar".data)⟩ (by norm_num)⟩

/-! ### Claim C3: strict-schema rejection of unknown fields -/

theorem responseFields_ok_keys :
    ∀ (fs : List (List Char × Json)) (idv : Option Nat) (outv : Option Outcome)
      (r : Response), responseFields fs idv outv = .ok r →
      ∀ kv ∈ fs, knownTopKey kv.1 = true := by
  intro fs
  induction fs with
  | nil =>
    intro idv outv r h kv hkv
    exact absurd hkv (List.not_mem_nil _)
  | cons kv0 rest ih =>
    intro idv outv r h kv hkv
    obtain ⟨k, v⟩ := kv0
    by_cases hk : knownTopKey k = true
    · rcases List.mem_cons.mp hkv with rfl | hmem
      · exact hk
      · simp only [responseFields] at h
        repeat' split at h
        all_goals
          first
            | exact absurd h (by simp)
            | exact ih _ _ _ h kv hmem
    · exfalso
      simp only [knownTopKey, Bool.or_eq_true, decide_eq_true_eq] at hk
      push_neg at hk
      obtain ⟨h1, h2⟩ := hk
      simp only [responseFields, if_neg h1, if_neg h2] at h
      exact absurd h (by simp)

theorem responseFields_ok_outcome :
    ∀ (fs : List (List Char × Json)) (idv : Option Nat) (outv : Option Outcome)
      (r : Response), responseFields fs idv outv = .ok r →
      ∀ v, lookupField fs "outcome".data = some v →
        ∃ o, Outcome.fromJson v = .ok o := by
  intro fs
  induction fs with
  | nil =>
    intro idv outv r h v hv
    simp [lookupField] at hv
  | cons kv0 rest ih =>
    intro idv outv r h v hv
    obtain ⟨k, w⟩ := kv0
    simp only [lookupField] at hv
    by_cases hk : k = "outcome".data
    · rw [if_pos hk] at hv
      have hwv : w = v := by
        cases hv
        rfl
      subst hwv
      simp only [responseFields] at h
      rw [if_neg (by rw [hk]; decide), if_pos hk] at h
      rcases outv with _ | o0
      · rcases heq : Outcome.fromJson w with e | o2
        · rw [heq] at h
          exact absurd h (by simp)
        · exact ⟨o2, rfl⟩
      · exact absurd h (by simp)
    · rw [if_neg hk] at hv
      simp only [responseFields] at h
      repeat' split at h
      all_goals
        first
          | exact absurd h (by simp)
          | exact ih _ _ _ h v hv

theorem findTag_found :
    ∀ (fs : List (List Char × Json)) (t0 : List Char)
      (acc : List (List Char × Json)) (t : List Char)
      (rest : List (List Char × Json)),
      findTag fs (some t0) acc = .ok (t, rest) → t = t0 := by
  intro fs
  induction fs with
  | nil =>
    intro t0 acc t rest h
    simp only [findTag] at h
    cases h
    rfl
  | cons kv0 rest0 ih =>
    intro t0 acc t rest h
    obtain ⟨k, v⟩ := kv0
    simp only [findTag] at h
    by_cases hk : k = "type".data
    · rw [if_pos hk] at h
      exact absurd h (by simp)
    · rw [if_neg hk] at h
      exact ih _ _ _ _ h

theorem findTag_mem_acc :
    ∀ (fs : List (List Char × Json)) (found : Option (List Char))
      (acc : List (List Char × Json)) (t : List Char)
      (rest : List (List Char × Json)),
      findTag fs found acc = .ok (t, rest) → ∀ kv ∈ acc, kv ∈ rest := by
  intro fs
  induction fs with
  | nil =>
    intro found acc t rest h kv hkv
    rcases found with _ | t0
    · simp [findTag] at h
    · simp only [findTag] at h
      cases h
      simpa using hkv
  | cons kv0 rest0 ih =>
    intro found acc t rest h kv hkv
    obtain ⟨k, v⟩ := kv0
    simp only [findTag] at h
    by_cases hk : k = "type".data
    · rw [if_pos hk] at h
      rcases found with _ | t0
      · cases v <;>
          first
            | exact ih _ _ _ _ h kv hkv
            | exact absurd h (by simp)
      · exact absurd h (by simp)
    · rw [if_neg hk] at h
      exact ih _ _ _ _ h kv (by simp [hkv])

theorem findTag_mem :
    ∀ (fs : List (List Char × Json)) (found : Option (List Char))
      (acc : List (List Char × Json)) (t : List Char)
      (rest : List (List Char × Json)),
      findTag fs found acc = .ok (t, rest) →
      ∀ kv ∈ fs, kv.1 ≠ "type".data → kv ∈ rest := by
  intro fs
  induction fs with
  | nil =>
    intro found acc t rest h kv hkv
    exact absurd hkv (List.not_mem_nil _)
  | cons kv0 rest0 ih =>
    intro found acc t rest h kv hkv hne
    obtain ⟨k, v⟩ := kv0
    rcases List.mem_cons.mp hkv with rfl | hmem
    · simp only [findTag] at h
      rw [if_neg hne] at h
      exact findTag_mem_acc _ _ _ _ _ h _ (by simp)
    · simp only [findTag] at h
      by_cases hk : k = "type".data
      · rw [if_pos hk] at h
        rcases found with _ | t0
        · cases v <;>
            first
              | exact ih _ _ _ _ h kv hmem hne
              | exact absurd h (by simp)
        · exact absurd h (by simp)
      · rw [if_neg hk] at h
        exact ih _ _ _ _ h kv hmem hne

theorem findTag_tag :
    ∀ (fs : List (List Char × Json)) (acc : List (List Char × Json))
      (t : List Char) (rest : List (List Char × Json)),
      findTag fs none acc = .ok (t, rest) →
      lookupField fs "type".data = some (.jstr t) := by
  intro fs
  induction fs with
  | nil =>
    intro acc t rest h
    simp [findTag] at h
  | cons kv0 rest0 ih =>
    intro acc t rest h
    obtain ⟨k, v⟩ := kv0
    simp only [findTag] at h
    simp only [lookupField]
    by_cases hk : k = "type".data
    · rw [if_pos hk] at h ⊢
      cases v with
      | jstr s => rw [findTag_found _ _ _ _ _ h]
      | null => exact absurd h (by simp)
      | jbool b => exact absurd h (by simp)
      | jnum n => exact absurd h (by simp)
      | jarr xs => exact absurd h (by simp)
      | jobj os2 => exact absurd h (by simp)
    · rw [if_neg hk] at h ⊢
      exact ih _ _ _ h

theorem outcomeTag_of_findTag (fs : List (List Char × Json))
    (acc : List (List Char × Json)) (t : List Char)
    (rest : List (List Char × Json))
    (h : findTag fs none acc = .ok (t, rest)) : outcomeTag fs = some t := by
  unfold outcomeTag
  rw [findTag_tag fs acc t rest h]

theorem ofGetFields_ok_keys :
    ∀ (fs : List (List Char × Json)) (st : Option (Option (List Char)))
      (o : Outcome), ofGetFields fs st = .ok o →
      ∀ kv ∈ fs, kv.1 = "value".data := by
  intro fs
  induction fs with
  | nil =>
    intro st o h kv hkv
    exact absurd hkv (List.not_mem_nil _)
  | cons kv0 rest ih =>
    intro st o h kv hkv
    obtain ⟨k, v⟩ := kv0
    simp only [ofGetFields] at h
    by_cases hk : k = "value".data
    · rw [if_pos hk] at h
      rcases List.mem_cons.mp hkv with rfl | hmem
      · exact hk
      · repeat' split at h
        all_goals
          first
            | exact absurd h (by simp)
            | exact ih _ _ h kv hmem
    · rw [if_neg hk] at h
      exact absurd h (by simp)

theorem ofSetFields_ok_keys :
    ∀ (fs : List (List Char × Json)) (st : Option Bool) (o : Outcome),
      ofSetFields fs st = .ok o → ∀ kv ∈ fs, kv.1 = "was_modified".data := by
  intro fs
  induction fs with
  | nil =>
    intro st o h kv hkv
    exact absurd hkv (List.not_mem_nil _)
  | cons kv0 rest ih =>
    intro st o h kv hkv
    obtain ⟨k, v⟩ := kv0
    simp only [ofSetFields] at h
    by_cases hk : k = "was_modified".data
    · rw [if_pos hk] at h
      rcases List.mem_cons.mp hkv with rfl | hmem
      · exact hk
      · repeat' split at h
        all_goals
          first
            | exact absurd h (by simp)
            | exact ih _ _ h kv hmem
    · rw [if_neg hk] at h
      exact absurd h (by simp)

theorem msgFields_ok_keys :
    ∀ (mk : List Char → Outcome) (fs : List (List Char × Json))
      (st : Option (List Char)) (o : Outcome),
      msgFields mk fs st = .ok o → ∀ kv ∈ fs, kv.1 = "msg".data := by
  intro mk fs
  induction fs with
  | nil =>
    intro st o h kv hkv
    exact absurd hkv (List.not_mem_nil _)
  | cons kv0 rest ih =>
    intro st o h kv hkv
    obtain ⟨k, v⟩ := kv0
    simp only [msgFields] at h
    by_cases hk : k = "msg".data
    · rw [if_pos hk] at h
      rcases List.mem_cons.mp hkv with rfl | hmem
      · exact hk
      · repeat' split at h
        all_goals
          first
            | exact absurd h (by simp)
            | exact ih _ _ h kv hmem
    · rw [if_neg hk] at h
      exact absurd h (by simp)

theorem outcome_fromJson_ok_keys (os : List (List Char × Json)) (o : Outcome)
    (h : Outcome.fromJson (.jobj os) = .ok o) :
    ∃ t, outcomeTag os = some t ∧
      ∀ kv ∈ os, kv.1 ≠ "type".data → kv.1 ∈ variantKeys t := by
  simp only [Outcome.fromJson] at h
  rcases heq : findTag os none [] with e | tr
  · rw [heq] at h
    exact absurd h (by simp)
  · obtain ⟨t, rest⟩ := tr
    rw [heq] at h
    refine ⟨t, outcomeTag_of_findTag os [] t rest heq, ?_⟩
    intro kv hkv hne
    have hmem : kv ∈ rest := findTag_mem os none [] t rest heq kv hkv hne
    simp only [] at h
    split at h
    · rename_i h1
      have hks := ofGetFields_ok_keys rest none o h kv hmem
      simp [variantKeys, h1, hks]
    · rename_i h1
      split at h
      · rename_i h2
        have hks := ofSetFields_ok_keys rest none o h kv hmem
        simp [variantKeys, h1, h2, hks]
      · rename_i h2
        split at h
        · rename_i h3
          have hks := msgFields_ok_keys _ rest none o h kv hmem
          simp [variantKeys, h1, h2, h3, hks]
        · rename_i h3
          split at h
          · rename_i h4
            have hks := msgFields_ok_keys _ rest none o h kv hmem
            simp [variantKeys, h1, h2, h3, h4, hks]
          · exact absurd h (by simp)

/-- C3: strict schema — every parsed JSON object carrying an unrecognized
    field, at top level or inside the tagged outcome variant, fails the
    derived deserializer, so decoding yields the synthetic Invalid response
    rather than the matching variant with the extra field ignored. -/
theorem c3_unknown_field_rejected (cs : List Char)
    (fs : List (List Char × Json))
    (hp : parseJson cs = .ok (.jobj fs)) (hu : hasUnknownField fs = true) :
    ∃ e, Response.fromBytes cs
      = { id := Hasher.hash cs, outcome := .Invalid e } := by
  have hd : decodeResponse cs = Response.fromJson (.jobj fs) := by
    unfold decodeResponse
    rw [hp]
  rcases hres : Response.fromJson (.jobj fs) with e | r
  · refine ⟨e.data, ?_⟩
    unfold Response.fromBytes
    rw [hd, hres]
  · exfalso
    simp only [Response.fromJson] at hres
    simp only [hasUnknownField, Bool.or_eq_true] at hu
    rcases hu with hu | hu
    · rw [List.any_eq_true] at hu
      obtain ⟨kv, hkv, hbad⟩ := hu
      have hk := responseFields_ok_keys fs none none r hres kv hkv
      rw [hk] at hbad
      simp at hbad
    · rcases hlf : lookupField fs "outcome".data with _ | v
      · rw [hlf] at hu
        simp at hu
      · rw [hlf] at hu
        cases v with
        | jobj os =>
          simp only [] at hu
          rcases htag : outcomeTag os with _ | t
          · rw [htag] at hu
            simp at hu
          · rw [htag] at hu
            simp only [] at hu
            rw [List.any_eq_true] at hu
            obtain ⟨kv, hkv, hbad⟩ := hu
            obtain ⟨o2, ho2⟩ := responseFields_ok_outcome fs none none r hres _ hlf
            obtain ⟨t2, ht2, hall⟩ := outcome_fromJson_ok_keys os o2 ho2
            rw [htag] at ht2
            cases ht2
            simp only [Bool.and_eq_true, Bool.not_eq_true',
              decide_eq_false_iff_not] at hbad
            exact hbad.2 (hall kv hkv hbad.1)
        | null => simp at hu
        | jbool b => simp at hu
        | jnum n => simp at hu
        | jstr s => simp at hu
        | jarr xs => simp at hu

theorem c3_unknown_field_rejected_witness :
    parseJson "\x7b\"id\":1,\"outcome\":\x7b\"type\":\"OfSet\",\"was_modified\":true\x7d,\"extra\":3\x7d".data
      = .ok (.jobj [("id".data, .jnum 1),
          ("outcome".data, .jobj [("type".data, .jstr "OfSet".data),
            ("was_modified".data, .jbool true)]),
          ("extra".data, .jnum 3)]) ∧
    hasUnknownField [("id".data, .jnum 1),
      ("outcome".data, .jobj [("type".data, .jstr "OfSet".data),
        ("was_modified".data, .jbool true)]),
      ("extra".data, .jnum 3)] = true ∧
    ∃ e, Response.fromBytes "\x7b\"id\":1,\"outcome\":\x7b\"type\":\"OfSet\",\"was_modified\":true\x7d,\"extra\":3\x7d".data
      = { id := Hasher.hash "\x7b\"id\":1,\"outcome\":\x7b\"type\":\"OfSet\",\"was_modified\":true\x7d,\"extra\":3\x7d".data,
          outcome := .Invalid e } :=
  ⟨rfl, rfl, c3_unknown_field_rejected _ _ rfl rfl⟩

/-! ### Connection-table lemmas -/

theorem tableGet_insert_self :
    ∀ (t : List (List Char × Connection)) (k : List Char) (v : Connection),
      tableGet (tableInsert t k v) k = some v := by
  intro t
  induction t with
  | nil =>
    intro k v
    simp [tableInsert, tableGet]
  | cons kv rest ih =>
    intro k v
    obtain ⟨k0, c0⟩ := kv
    by_cases hk : k0 = k
    · simp [tableInsert, tableGet, hk]
    · simp only [tableInsert, if_neg hk, tableGet]
      exact ih k v

theorem tableGet_insert_other :
    ∀ (t : List (List Char × Connection)) (k : List Char) (v : Connection)
      (k2 : List Char), k ≠ k2 →
      tableGet (tableInsert t k v) k2 = tableGet t k2 := by
  intro t
  induction t with
  | nil =>
    intro k v k2 h
    simp [tableInsert, tableGet, h]
  | cons kv rest ih =>
    intro k v k2 h
    obtain ⟨k0, c0⟩ := kv
    by_cases hk : k0 = k
    · subst hk
      simp [tableInsert, tableGet, h]
    · simp only [tableInsert, if_neg hk, tableGet]
      by_cases hk2 : k0 = k2
      · rw [if_pos hk2, if_pos hk2]
      · rw [if_neg hk2, if_neg hk2]
        exact ih k v k2 h

theorem tableGet_insert_present (t : List (List Char × Connection))
    (k : List Char) (v : Connection) (k2 : List Char)
    (h : tableGet t k2 ≠ none) : tableGet (tableInsert t k v) k2 ≠ none := by
  by_cases hk : k = k2
  · subst hk
    rw [tableGet_insert_self]
    simp
  · rw [tableGet_insert_other t k v k2 hk]
    exact h

theorem tableGet_insert_none (t : List (List Char × Connection))
    (k : List Char) (v : Connection) (k2 : List Char)
    (h : tableGet (tableInsert t k v) k2 ≠ none) :
    k2 = k ∨ tableGet t k2 ≠ none := by
  by_cases hk : k = k2
  · exact Or.inl hk.symm
  · right
    rw [tableGet_insert_other t k v k2 hk] at h
    exact h

theorem dialStep_present (dial : SocketAddr → Except (List Char) Connection)
    (t : List (List Char × Connection)) (a : SocketAddr) (k : List Char)
    (h : tableGet t k ≠ none) : tableGet (dialStep dial t a) k ≠ none := by
  unfold dialStep
  rcases dial a with e | conn
  · exact h
  · exact tableGet_insert_present t _ conn k h

theorem foldl_dialStep_present (dial : SocketAddr → Except (List Char) Connection) :
    ∀ (addrs : List SocketAddr) (t : List (List Char × Connection))
      (k : List Char), tableGet t k ≠ none →
      tableGet (addrs.foldl (dialStep dial) t) k ≠ none := by
  intro addrs
  induction addrs with
  | nil =>
    intro t k h
    simpa using h
  | cons a rest ih =>
    intro t k h
    rw [List.foldl_cons]
    exact ih _ k (dialStep_present dial t a k h)

theorem foldl_dialStep_ok (dial : SocketAddr → Except (List Char) Connection) :
    ∀ (addrs : List SocketAddr) (t : List (List Char × Connection))
      (a : SocketAddr), a ∈ addrs → (∃ conn, dial a = .ok conn) →
      tableGet (addrs.foldl (dialStep dial) t) a.toString ≠ none := by
  intro addrs
  induction addrs with
  | nil =>
    intro t a ha
    exact absurd ha (List.not_mem_nil _)
  | cons a0 rest ih =>
    intro t a ha hok
    rw [List.foldl_cons]
    rcases List.mem_cons.mp ha with rfl | hmem
    · obtain ⟨conn, hc⟩ := hok
      have hstep : tableGet (dialStep dial t a) a.toString ≠ none := by
        unfold dialStep
        rw [hc, tableGet_insert_self]
        simp
      exact foldl_dialStep_present dial rest _ _ hstep
    · exact ih _ a hmem hok

theorem foldl_dialStep_sources (dial : SocketAddr → Except (List Char) Connection) :
    ∀ (addrs : List SocketAddr) (t : List (List Char × Connection))
      (k : List Char), tableGet (addrs.foldl (dialStep dial) t) k ≠ none →
      tableGet t k ≠ none ∨
        ∃ a ∈ addrs, (∃ conn, dial a = .ok conn) ∧ k = a.toString := by
  intro addrs
  induction addrs with
  | nil =>
    intro t k h
    left
    simpa using h
  | cons a0 rest ih =>
    intro t k h
    rw [List.foldl_cons] at h
    rcases ih _ _ h with h2 | h2
    · unfold dialStep at h2
      rcases hda : dial a0 with e | conn
      · rw [hda] at h2
        exact Or.inl h2
      · rw [hda] at h2
        rcases tableGet_insert_none _ _ _ _ h2 with rfl | h3
        · exact Or.inr ⟨a0, by simp, ⟨conn, hda⟩, rfl⟩
        · exact Or.inl h3
    · obtain ⟨a, hmem, hrest⟩ := h2
      exact Or.inr ⟨a, by simp [hmem], hrest⟩

/-! ### Claim C4: run joins all dials, inserts successes, skips failures -/

/-- C4: run returns Ok after folding in the result of every configured dial:
    the final table keeps every existing key, holds an entry keyed by the
    string form of every successfully dialed address, and holds nothing else,
    so a failed dial is silently omitted while run still succeeds. -/
theorem c4_run_partial_failure (c : Client)
    (dial : SocketAddr → Except (List Char) Connection) :
    ∃ c2, Client.run c dial = .ok c2 ∧
      c2.address = c.address ∧ c2.server_addresses = c.server_addresses ∧
      (∀ a ∈ c.server_addresses, (∃ conn, dial a = .ok conn) →
        tableGet c2.connections a.toString ≠ none) ∧
      (∀ k, tableGet c2.connections k ≠ none →
        tableGet c.connections k ≠ none ∨
          ∃ a ∈ c.server_addresses, (∃ conn, dial a = .ok conn) ∧
            k = a.toString) := by
  refine ⟨_, rfl, rfl, rfl, ?_, ?_⟩
  · intro a ha hok
    exact foldl_dialStep_ok dial c.server_addresses c.connections a ha hok
  · intro k h
    exact foldl_dialStep_sources dial c.server_addresses c.connections k h

theorem c4_run_partial_failure_witness :
    ∃ c2, Client.run sampleClient sampleDial = .ok c2 ∧
      c2.address = sampleClient.address ∧
      c2.server_addresses = sampleClient.server_addresses ∧
      (∀ a ∈ sampleClient.server_addresses, (∃ conn, sampleDial a = .ok conn) →
        tableGet c2.connections a.toString ≠ none) ∧
      (∀ k, tableGet c2.connections k ≠ none →
        tableGet sampleClient.connections k ≠ none ∨
          ∃ a ∈ sampleClient.server_addresses,
            (∃ conn, sampleDial a = .ok conn) ∧ k = a.toString) :=
  c4_run_partial_failure sampleClient sampleDial

/-! ### Claims C5 to C10: the write path -/

theorem write_to_present (c : Client) (peer msg : List Char)
    (net : Nat → Except (List Char) Unit) (conn : Connection)
    (h : tableGet c.connections peer = some conn) :
    (Client.write_to c peer msg net).client = c ∧
    (Client.write_to c peer msg net).frames = [conn.writeFrame msg] := by
  unfold Client.write_to
  rw [h]
  refine ⟨rfl, ?_⟩
  show (Client.write conn msg net).2 = _
  unfold Client.write
  rcases net conn.streamId with e | u <;> rfl

/-- C5: write_to with a key absent from the connection table returns the
    NoPeerAtAddress error naming that key, performs no write, and leaves the
    client state unchanged; with a present key it performs exactly one write
    on that peer's connection. -/
theorem c5_write_to_no_peer (c : Client) (peer msg : List Char)
    (net : Nat → Except (List Char) Unit) :
    (tableGet c.connections peer = none →
      Client.write_to c peer msg net
        = ⟨.error (.illegalState (.NoPeerAtAddress peer)), c, []⟩) ∧
    (∀ conn, tableGet c.connections peer = some conn →
      (Client.write_to c peer msg net).client = c ∧
      (Client.write_to c peer msg net).frames = [conn.writeFrame msg]) := by
  constructor
  · intro h
    unfold Client.write_to
    rw [h]
  · intro conn h
    exact write_to_present c peer msg net conn h

theorem c5_write_to_no_peer_witness :
    tableGet sampleClient.connections "nope".data = none ∧
    Client.write_to sampleClient "nope".data "hello".data sampleNet
      = ⟨.error (.illegalState (.NoPeerAtAddress "nope".data)), sampleClient, []⟩ ∧
    tableGet sampleClient.connections "p1".data = some ⟨1⟩ ∧
    (Client.write_to sampleClient "p1".data "hello".data sampleNet).frames
      = [Connection.writeFrame ⟨1⟩ "hello".data] :=
  ⟨rfl,
    (c5_write_to_no_peer sampleClient "nope".data "hello".data sampleNet).1 rfl,
    rfl,
    ((c5_write_to_no_peer sampleClient "p1".data "hello".data sampleNet).2
      ⟨1⟩ rfl).2⟩

theorem resolveConns_none :
    ∀ (peers : List (List Char)) (t : List (List Char × Connection)),
      (∃ k ∈ peers, tableGet t k = none) → resolveConns t peers = none := by
  intro peers
  induction peers with
  | nil =>
    intro t h
    obtain ⟨k, hk, _⟩ := h
    exact absurd hk (List.not_mem_nil _)
  | cons p rest ih =>
    intro t h
    obtain ⟨k, hk, hnone⟩ := h
    simp only [resolveConns]
    rcases List.mem_cons.mp hk with rfl | hmem
    · rw [hnone]
    · rw [ih t ⟨k, hmem, hnone⟩]
      rcases tableGet t p with _ | c <;> rfl

theorem resolveConns_some :
    ∀ (peers : List (List Char)) (t : List (List Char × Connection)),
      (∀ k ∈ peers, tableGet t k ≠ none) →
      ∃ cs, resolveConns t peers = some cs ∧ cs.length = peers.length := by
  intro peers
  induction peers with
  | nil =>
    intro t h
    exact ⟨[], rfl, rfl⟩
  | cons p rest ih =>
    intro t h
    obtain ⟨cs, hcs, hlen⟩ := ih t (fun k hk => h k (by simp [hk]))
    rcases hg : tableGet t p with _ | c
    · exact absurd hg (h p (by simp))
    · refine ⟨c :: cs, ?_, by simp [hlen]⟩
      simp only [resolveConns]
      rw [hg, hcs]

/-- C8: write_many fails fast during key resolution — if some key in the
    batch is absent from the connection table the unwrap panics, while under
    the precondition that every key is present the lookups all succeed, no
    panic occurs, and the call produces a result. -/
theorem c8_write_many_unwrap (c : Client) (peers : List (List Char))
    (msg : List Char) (outs : Nat → TaskRes) (order : List Nat) :
    ((∃ k ∈ peers, tableGet c.connections k = none) →
      Client.write_many c peers msg outs order = none) ∧
    ((∀ k ∈ peers, tableGet c.connections k ≠ none) →
      ∃ out, Client.write_many c peers msg outs order = some out) := by
  constructor
  · intro h
    unfold Client.write_many
    rw [resolveConns_none peers c.connections h]
  · intro h
    obtain ⟨cs, hcs, _⟩ := resolveConns_some peers c.connections h
    unfold Client.write_many
    rw [hcs]
    exact ⟨_, rfl⟩

theorem c8_write_many_unwrap_witness :
    (∃ k ∈ ["p1".data, "nope".data],
      tableGet sampleClient.connections k = none) ∧
    Client.write_many sampleClient ["p1".data, "nope".data] "hello".data
      sampleOuts [0, 1] = none ∧
    (∀ k ∈ ["p1".data, "p3".data],
      tableGet sampleClient.connections k ≠ none) ∧
    ∃ out, Client.write_many sampleClient ["p1".data, "p3".data] "hello".data
      sampleOuts [0, 1] = some out :=
  ⟨by decide,
    (c8_write_many_unwrap sampleClient ["p1".data, "nope".data] "hello".data
      sampleOuts [0, 1]).1 (by decide),
    by decide,
    (c8_write_many_unwrap sampleClient ["p1".data, "p3".data] "hello".data
      sampleOuts [0, 1]).2 (by decide)⟩

/-- C6: write_many returns exactly one result per target peer: the collected
    list is the completion-order permutation of the per-task results, its
    length equals the number of targets, and a panic inside one task is
    converted into an error value in that task's own result slot instead of
    being propagated, so one peer's failure never aborts or removes the
    results of the others. -/
theorem c6_write_many_isolates_failures (c : Client) (peers : List (List Char))
    (msg : List Char) (outs : Nat → TaskRes) (order : List Nat)
    (out : WriteManyOut)
    (hperm : order.Perm (List.range peers.length))
    (h : Client.write_many c peers msg outs order = some out) :
    out.results.length = peers.length ∧
    out.results.Perm
      ((List.range peers.length).map fun i => taskResult (outs i)) ∧
    ∀ i e, outs i = .panicked e →
      taskResult (outs i) = .error (.joinErr e) := by
  unfold Client.write_many at h
  rcases hrc : resolveConns c.connections peers with _ | conns
  · rw [hrc] at h
    exact absurd h (by simp)
  · rw [hrc] at h
    cases h
    refine ⟨?_, ?_, ?_⟩
    · simpa using hperm.length_eq
    · exact hperm.map _
    · intro i e he
      rw [he]
      rfl

theorem c6_write_many_isolates_failures_witness :
    ([1, 0] : List Nat).Perm
        (List.range (["p1".data, "p2".data] : List (List Char)).length) ∧
    Client.write_many sampleClient ["p1".data, "p2".data] "hello".data
        sampleOuts [1, 0]
      = some ⟨[.error (.joinErr "task panicked".data), .ok ()], sampleClient,
          [Connection.writeFrame ⟨1⟩ "hello".data]⟩ ∧
    (⟨[.error (.joinErr "task panicked".data), .ok ()], sampleClient,
        [Connection.writeFrame ⟨1⟩ "hello".data]⟩ : WriteManyOut).results.length
      = (["p1".data, "p2".data] : List (List Char)).length :=
  ⟨by decide, rfl,
    (c6_write_many_isolates_failures sampleClient ["p1".data, "p2".data]
      "hello".data sampleOuts [1, 0] _ (by decide) rfl).1⟩

/-- C7: broadcast equals write_many over the snapshot, taken at call time,
    of the peer keys in the connection table — the same per-peer writes and
    the same per-peer results. -/
theorem c7_broadcast_is_write_many (c : Client) (msg : List Char)
    (outs : Nat → TaskRes) (order : List Nat) :
    Client.broadcast c msg outs order
      = Client.write_many c (tableKeys c.connections) msg outs order := rfl

theorem c7_broadcast_is_write_many_witness :
    Client.broadcast sampleClient "hello".data sampleOuts [0, 1, 2]
      = Client.write_many sampleClient (tableKeys sampleClient.connections)
          "hello".data sampleOuts [0, 1, 2] :=
  c7_broadcast_is_write_many sampleClient "hello".data sampleOuts [0, 1, 2]

/-- C9: a point-to-point write frames the serialized message followed by one
    newline byte on the target peer's stream, and every frame of the call is
    on that stream, so no other peer observes anything. -/
theorem c9_write_frame_delimited (c : Client) (peer msg : List Char)
    (net : Nat → Except (List Char) Unit) (conn : Connection)
    (h : tableGet c.connections peer = some conn) :
    (Client.write_to c peer msg net).frames
        = [Frame.mk conn.streamId (msg ++ ['\n'])] ∧
    ∀ fr ∈ (Client.write_to c peer msg net).frames, fr.conn = conn.streamId := by
  have hf := (write_to_present c peer msg net conn h).2
  refine ⟨hf, ?_⟩
  intro fr hfr
  rw [hf] at hfr
  rcases List.mem_singleton.mp hfr with rfl
  rfl

theorem c9_write_frame_delimited_witness :
    tableGet sampleClient.connections "p1".data = some ⟨1⟩ ∧
    (Client.write_to sampleClient "p1".data "hello".data sampleNet).frames
      = [Frame.mk 1 ("hello".data ++ ['\n'])] :=
  ⟨rfl,
    (c9_write_frame_delimited sampleClient "p1".data "hello".data sampleNet
      ⟨1⟩ rfl).1⟩

/-- C10: the write operations never insert into or remove from the
    connection table — after write_to, write_many or broadcast the table is
    the one before the call; only run adds entries. -/
theorem c10_writes_preserve_connections (c : Client) (peer msg : List Char)
    (peers : List (List Char)) (net : Nat → Except (List Char) Unit)
    (outs : Nat → TaskRes) (order : List Nat) :
    (Client.write_to c peer msg net).client.connections = c.connections ∧
    (∀ out, Client.write_many c peers msg outs order = some out →
      out.client.connections = c.connections) ∧
    (∀ out, Client.broadcast c msg outs order = some out →
      out.client.connections = c.connections) := by
  refine ⟨?_, ?_, ?_⟩
  · unfold Client.write_to
    rcases tableGet c.connections peer with _ | conn <;> rfl
  · intro out h
    unfold Client.write_many at h
    rcases hrc : resolveConns c.connections peers with _ | conns
    · rw [hrc] at h
      exact absurd h (by simp)
    · rw [hrc] at h
      cases h
      rfl
  · intro out h
    unfold Client.broadcast Client.write_many at h
    rcases hrc : resolveConns c.connections (tableKeys c.connections)
      with _ | conns
    · rw [hrc] at h
      exact absurd h (by simp)
    · rw [hrc] at h
      cases h
      rfl

theorem c10_writes_preserve_connections_witness :
    (Client.write_to sampleClient "p1".data "hello".data
        sampleNet).client.connections = sampleClient.connections ∧
    ∀ out, Client.broadcast sampleClient "hello".data sampleOuts [0, 1, 2]
        = some out → out.client.connections = sampleClient.connections :=
  ⟨(c10_writes_preserve_connections sampleClient "p1".data "hello".data
      ["p1".data] sampleNet sampleOuts [0, 1, 2]).1,
    (c10_writes_preserve_connections sampleClient "p1".data "hello".data
      ["p1".data] sampleNet sampleOuts [0, 1, 2]).2.2⟩

end Stors
